import Mathlib

/-!
Verification of the voice-assistant core (app1.py): the conversation session
(process_input, clear_conversation), the text segmentation and chunking in
generate_speech, the synthesis and playback loops, and the capture-loop traces
of SpeechRecognitionThread.
-/

/-- Role of a chat message, mirroring the langchain message classes
SystemMessage, HumanMessage and AIMessage. -/
inductive Role where
  | system
  | human
  | ai
  deriving DecidableEq, Repr

/-- One chat message: a role and its text content. -/
structure Msg where
  role : Role
  content : String
  deriving DecidableEq, Repr

/-- Content of the fixed system message created in ConversationalBot init. -/
def systemPromptText : String :=
  "You are a helpful assistant that provides direct, concise answers without unnecessary text. " ++
  "Keep responses brief, straightforward, and to the point. " ++
  "Answer questions directly without long introductions or excessive explanations. " ++
  "Use simple language and be efficient with words."

/-- The system message object created once at construction. -/
def initialSystemMessage : Msg := ⟨Role.system, systemPromptText⟩

/-- State of a ConversationalBot: the fixed system message and the
conversation_history list, which (as in the source) initially contains the
system message itself at position 0. -/
structure ConversationalBot where
  system_message : Msg
  conversation_history : List Msg
  deriving DecidableEq, Repr

/-- ConversationalBot init: system_message fixed, history = [system_message]. -/
def mkBot : ConversationalBot := ⟨initialSystemMessage, [initialSystemMessage]⟩

/-- Fixed reply for empty input in process_input. -/
def apologyText : String := "I didn\x27t catch that. Could you please repeat?"

/-- Fixed reply when the chat backend raises in process_input. -/
def fallbackText : String :=
  "I\x27m having trouble connecting to my language model. Please try again later."

/-- Python slice conversation_history[-10:]: the last at most ten elements. -/
def lastTen (l : List Msg) : List Msg := l.drop (l.length - 10)

/-- Guarded head test from the deduplication loop: len(messages) > 0 and
isinstance(messages[0], SystemMessage). -/
def headIsSystem : List Msg → Bool
  | [] => false
  | m :: _ => m.role == Role.system

/-- One iteration of the deduplication loop in process_input: append msg unless
it is a system message and the accumulated list already starts with one. -/
def dedupStep (messages : List Msg) (msg : Msg) : List Msg :=
  if msg.role == Role.system && headIsSystem messages then messages
  else messages ++ [msg]

/-- The deduplication loop of process_input over filtered_history. -/
def buildMessages (filtered : List Msg) : List Msg :=
  filtered.foldl dedupStep []

/-- The message list process_input sends to the chat backend for input t:
[system_message] + conversation_history[-10:] taken after the user message was
appended, run through the deduplication loop. -/
def requestMessages (b : ConversationalBot) (t : String) : List Msg :=
  buildMessages
    (b.system_message :: lastTen (b.conversation_history ++ [⟨Role.human, t⟩]))

/-- ConversationalBot.process_input. The chat backend (self.llm.invoke inside
the try block) is a parameter returning some response text, or none when the
call raises. Returns the new bot state and the returned string. -/
def process_input (b : ConversationalBot) (text_input : String)
    (backend : List Msg → Option String) : ConversationalBot × String :=
  if text_input = "" then (b, apologyText)
  else
    let b1 : ConversationalBot :=
      { b with conversation_history :=
          b.conversation_history ++ [⟨Role.human, text_input⟩] }
    match backend (requestMessages b text_input) with
    | some response_text =>
        ({ b1 with conversation_history :=
            b1.conversation_history ++ [⟨Role.ai, response_text⟩] },
         response_text)
    | none => (b1, fallbackText)

/-- VoiceAssistantApp.clear_conversation restricted to bot state:
conversation_history is reset to [system_message]. -/
def clear_conversation (b : ConversationalBot) : ConversationalBot :=
  { b with conversation_history := [b.system_message] }

/-- Bot states reachable from construction by process_input and
clear_conversation. -/
inductive Reachable : ConversationalBot → Prop where
  | init : Reachable mkBot
  | reply (b : ConversationalBot) (t : String) (backend : List Msg → Option String) :
      Reachable b → Reachable (process_input b t backend).1
  | clear (b : ConversationalBot) : Reachable b → Reachable (clear_conversation b)

/-- The code_indicators list of generate_speech. -/
def codeIndicators : List (List Char) :=
  ["```".toList, "def ".toList, "class ".toList, "function".toList,
   "public static void".toList, "import ".toList, "#include".toList,
   "package ".toList, "from ".toList]

/-- Python substring test: ind in text. -/
def occursIn (ind : List Char) : List Char → Bool
  | [] => List.isPrefixOf ind []
  | c :: rest => List.isPrefixOf ind (c :: rest) || occursIn ind rest

/-- contains_code from generate_speech: some indicator occurs in the text. -/
def containsCode (text : List Char) : Bool :=
  codeIndicators.any (fun ind => occursIn ind text)

/-- Some code indicator starts exactly at the head of l. -/
def matchesIndicator (l : List Char) : Bool :=
  codeIndicators.any (fun ind => List.isPrefixOf ind l)

/-- Position of the leftmost occurrence of any code indicator: the position of
the first match of the re.split alternation. -/
def findSplit : List Char → Option Nat
  | [] => none
  | c :: rest =>
      if matchesIndicator (c :: rest) then some 0
      else (findSplit rest).map (fun n => n + 1)

/-- Whitespace class of python str.strip (ASCII part). -/
def isPyWhitespace (c : Char) : Bool :=
  c = ' ' || c = '\t' || c = '\n' || c = '\r' || c = '\x0b' || c = '\x0c'

/-- Python str.strip(). -/
def stripChars (l : List Char) : List Char :=
  ((l.dropWhile isPyWhitespace).reverse.dropWhile isPyWhitespace).reverse

/-- The fixed generic introduction used when no clear intro precedes the code. -/
def placeholderIntro : List Char := "Here\x27s the code you requested.".toList

/-- The speakable-introduction selection of generate_speech: when the text
contains code, the stripped text before the first indicator match, replaced by
the fixed placeholder when empty or shorter than 10 characters; otherwise the
full text. The none branch of findSplit mirrors re.split returning the whole
text when nothing matches (unreachable when containsCode holds). -/
def speakableIntro (text : List Char) : List Char :=
  if containsCode text then
    let first_part := stripChars (text.take ((findSplit text).getD text.length))
    if first_part = [] ∨ first_part.length < 10 then placeholderIntro
    else first_part
  else text

/-- The chunk comprehension of generate_speech:
chunks = [t[i:i+maxLen] for i in range(0, len(t), maxLen)]; for maxLen > 0 the
stepped range enumerates ceil(len/maxLen) slice starts 0, maxLen, 2*maxLen, .. -/
def chunkForSynthesis (text : List Char) (maxLen : Nat) : List (List Char) :=
  (List.range ((text.length + maxLen - 1) / maxLen)).map
    (fun i => (text.drop (i * maxLen)).take maxLen)

/-- The synthesis loop of generate_speech: for each chunk request the TTS
service; on status 200 append a temp file for the chunk to temp_files,
otherwise print the status and continue with the next chunk. Returns the
chunks backing temp_files, in order. -/
def synthesizeChunks (status : List Char → Nat) : List (List Char) → List (List Char)
  | [] => []
  | chunk :: rest =>
      if status chunk = 200 then chunk :: synthesizeChunks status rest
      else synthesizeChunks status rest

/-- A synthesized temp file queued for playback; playFails models pygame
raising an exception while loading, playing or waiting on this asset. -/
structure AudioAsset where
  file : String
  playFails : Bool
  deriving DecidableEq, Repr

/-- The files actually deleted by the playback loop of generate_speech: each
file is unlinked after its playback completes, but an exception while playing
an asset jumps to the function-level except handler, so the failing file and
every later file are never unlinked. -/
def playbackDeletedFiles : List AudioAsset → List String
  | [] => []
  | a :: rest => if a.playFails then [] else a.file :: playbackDeletedFiles rest

/-- Outcome of one capture cycle of SpeechRecognitionThread.run. -/
inductive CycleOutcome where
  | success (text : String)
  | emptyText
  | unintelligible
  | recognitionError (e : String)
  | captureFault (e : String)
  deriving DecidableEq, Repr

/-- An emitted signal: a transcribed event or a status event. -/
inductive Event where
  | transcript (t : String)
  | status (s : String)
  deriving DecidableEq, Repr

/-- The signals one capture cycle emits, per the run() handlers. -/
def cycleEvents : CycleOutcome → List Event
  | CycleOutcome.success t => [Event.transcript t]
  | CycleOutcome.emptyText => []
  | CycleOutcome.unintelligible => [Event.status "Could not understand audio"]
  | CycleOutcome.recognitionError e => [Event.status ("Recognition error: " ++ e)]
  | CycleOutcome.captureFault e => [Event.status ("Error listening: " ++ e)]

/-- Trace of run() when stop() is called while the loop is blocked in the
capture call of cycle current, after the cycles in prior completed: run emits
Listening and the prior cycle events; stop() sets running to False and emits
the Stopped status immediately; the in-flight cycle then completes and emits
its own events; the while condition reads running = False and the loop exits,
emitting nothing further. -/
def runStopDuringCapture (prior : List CycleOutcome) (current : CycleOutcome) :
    List Event :=
  Event.status "Listening..." ::
    ((prior.map cycleEvents).flatten ++
      Event.status "Stopped listening" :: cycleEvents current)

/-- The terminal-Stopped property claimed for a trace: nothing at all is
emitted after the Stopped status. -/
def noEventsAfterStopped (tr : List Event) : Prop :=
  ∀ pre post, tr = pre ++ Event.status "Stopped listening" :: post → post = []

/-! ## Helper lemmas on the deduplication loop and the bounded request -/

/-- Once the accumulator starts with a system message, the deduplication loop
appends exactly the non-system messages of the remaining input. -/
theorem foldl_dedupStep_system (rest : List Msg) :
    ∀ (acc : List Msg) (m0 : Msg), acc.head? = some m0 → m0.role = Role.system →
      List.foldl dedupStep acc rest =
        acc ++ rest.filter (fun m => !(m.role == Role.system)) := by
  induction rest with
  | nil => intro acc m0 _ _; simp
  | cons m rest ih =>
      intro acc m0 h hm
      obtain ⟨a0, acc', rfl⟩ : ∃ a0 acc', acc = a0 :: acc' := by
        cases acc with
        | nil => simp at h
        | cons a0 acc' => exact ⟨a0, acc', rfl⟩
      have ha0 : a0 = m0 := by simpa using h
      subst ha0
      by_cases hsys : m.role = Role.system
      · have hstep : dedupStep (a0 :: acc') m = a0 :: acc' := by
          simp [dedupStep, headIsSystem, hsys, hm]
        rw [List.foldl_cons, hstep, ih (a0 :: acc') a0 rfl hm]
        simp [List.filter_cons, hsys]
      · have hstep : dedupStep (a0 :: acc') m = (a0 :: acc') ++ [m] := by
          simp [dedupStep, hsys]
        rw [List.foldl_cons, hstep, ih ((a0 :: acc') ++ [m]) a0 (by simp) hm]
        simp [List.filter_cons, hsys]

/-- The deduplication loop on a list headed by a system message keeps that head
and filters every other system message out. -/
theorem buildMessages_cons_system (s : Msg) (rest : List Msg)
    (hs : s.role = Role.system) :
    buildMessages (s :: rest) =
      s :: rest.filter (fun m => !(m.role == Role.system)) := by
  unfold buildMessages
  rw [List.foldl_cons]
  have h1 : dedupStep [] s = [s] := by simp [dedupStep, headIsSystem]
  rw [h1, foldl_dedupStep_system rest [s] s rfl hs]
  simp

/-- The slice conversation_history[-10:] has at most ten elements. -/
theorem lastTen_length_le (l : List Msg) : (lastTen l).length ≤ 10 := by
  unfold lastTen
  rw [List.length_drop]
  omega

/-! ## Conversation session claims -/

/-- Claim C1: across any sequence of process_input calls, a successful call
appends the user then the assistant message (history grows by exactly 2),
empty input leaves history unchanged (grows by 0), and a chat-backend failure
keeps only the appended user message (grows by exactly 1) and returns the
fixed fallback string. -/
theorem process_input_history_growth (b : ConversationalBot) (t : String)
    (backend : List Msg → Option String) :
    (process_input b t backend).1.conversation_history =
      b.conversation_history ++
        (if t = "" then []
         else match backend (requestMessages b t) with
           | some r => [⟨Role.human, t⟩, ⟨Role.ai, r⟩]
           | none => [⟨Role.human, t⟩]) ∧
    (process_input b t backend).1.conversation_history.length =
      b.conversation_history.length +
        (if t = "" then 0
         else match backend (requestMessages b t) with
           | some _ => 2
           | none => 1) ∧
    (process_input b t backend).2 =
      (if t = "" then apologyText
       else match backend (requestMessages b t) with
         | some r => r
         | none => fallbackText) := by
  by_cases h : t = ""
  · simp [process_input, h]
  · cases hbk : backend (requestMessages b t) with
    | some r => simp [process_input, h, hbk]
    | none => simp [process_input, h, hbk]

/-- Claim C2: for every state of the conversation history, the message list
built for a backend request contains at most 11 messages (10 history entries
plus the system message) and exactly one system message, at position 0. -/
theorem requestMessages_bounded (b : ConversationalBot) (t : String)
    (hs : b.system_message.role = Role.system) :
    (requestMessages b t).length ≤ 11 ∧
    (requestMessages b t).head? = some b.system_message ∧
    (requestMessages b t).countP (fun m => m.role == Role.system) = 1 := by
  have hreq : requestMessages b t =
      b.system_message ::
        (lastTen (b.conversation_history ++ [⟨Role.human, t⟩])).filter
          (fun m => !(m.role == Role.system)) :=
    buildMessages_cons_system _ _ hs
  refine ⟨?_, ?_, ?_⟩
  · rw [hreq]
    have h10 := lastTen_length_le (b.conversation_history ++ [⟨Role.human, t⟩])
    have hf := List.length_filter_le (fun m => !(m.role == Role.system))
      (lastTen (b.conversation_history ++ [⟨Role.human, t⟩]))
    simp only [List.length_cons]
    omega
  · rw [hreq]; rfl
  · rw [hreq]
    rw [List.countP_cons]
    have hz : (List.filter (fun m => !(m.role == Role.system))
        (lastTen (b.conversation_history ++ [⟨Role.human, t⟩]))).countP
          (fun m => m.role == Role.system) = 0 := by
      rw [List.countP_eq_zero]
      intro a ha
      have := List.of_mem_filter ha
      simpa using this
    rw [hz]
    simp [hs]

/-- Witness for claim C2 at the freshly constructed bot. -/
theorem requestMessages_bounded_witness :
    (requestMessages mkBot "hi").length ≤ 11 ∧
    (requestMessages mkBot "hi").head? = some mkBot.system_message ∧
    (requestMessages mkBot "hi").countP (fun m => m.role == Role.system) = 1 :=
  requestMessages_bounded mkBot "hi" rfl

/-- Counterexample to claim C7: the whitespace-only input " " is not caught by
the emptiness check (python tests only `if not text_input`), so process_input
appends it to the history and invokes the backend, whose reply it returns. -/
theorem process_input_whitespace_counterexample :
    (process_input mkBot " " (fun _ => none)).1.conversation_history =
      mkBot.conversation_history ++ [⟨Role.human, " "⟩] ∧
    (process_input mkBot " " (fun _ => some "reply")).2 = "reply" := by
  constructor
  · rfl
  · rfl

/-- Claim C7 as amended: only for userText equal to the empty string does
process_input return the fixed apology, leave the history unchanged and not
invoke the chat backend (the result is the same for every backend). -/
theorem process_input_empty_amended (b : ConversationalBot)
    (backend : List Msg → Option String) :
    process_input b "" backend = (b, apologyText) := rfl

/-- Claim C8: clear_conversation resets the history so that only the fixed
system message remains, is idempotent, and a Reply made immediately after it
builds a backend request holding exactly the system message and the new user
message. -/
theorem clear_conversation_spec (b : ConversationalBot) (t : String)
    (hs : b.system_message.role = Role.system) :
    (clear_conversation b).conversation_history = [b.system_message] ∧
    (clear_conversation b).system_message = b.system_message ∧
    clear_conversation (clear_conversation b) = clear_conversation b ∧
    requestMessages (clear_conversation b) t = [b.system_message, ⟨Role.human, t⟩] := by
  refine ⟨rfl, rfl, rfl, ?_⟩
  have hlast : lastTen ([b.system_message] ++ [⟨Role.human, t⟩]) =
      [b.system_message, ⟨Role.human, t⟩] := rfl
  have : requestMessages (clear_conversation b) t =
      buildMessages (b.system_message :: [b.system_message, ⟨Role.human, t⟩]) := by
    unfold requestMessages clear_conversation
    rw [hlast]
  rw [this, buildMessages_cons_system _ _ hs]
  simp [List.filter_cons, hs]

/-- Witness for claim C8 at the freshly constructed bot with input hi. -/
theorem clear_conversation_spec_witness :
    (clear_conversation mkBot).conversation_history = [mkBot.system_message] ∧
    (clear_conversation mkBot).system_message = mkBot.system_message ∧
    clear_conversation (clear_conversation mkBot) = clear_conversation mkBot ∧
    requestMessages (clear_conversation mkBot) "hi" =
      [mkBot.system_message, ⟨Role.human, "hi"⟩] :=
  clear_conversation_spec mkBot "hi" rfl

/-- Claim C10: in every reachable bot state the history starts with the fixed
system message created at construction and every later element is a human or
an assistant message; no operation removes, replaces or duplicates the system
message inside the stored history. -/
theorem conversation_history_invariant (b : ConversationalBot)
    (h : Reachable b) :
    b.system_message = initialSystemMessage ∧
    ∃ rest, b.conversation_history = initialSystemMessage :: rest ∧
      ∀ m ∈ rest, m.role = Role.human ∨ m.role = Role.ai := by
  induction h with
  | init => exact ⟨rfl, [], rfl, by simp⟩
  | reply b t backend hb ih =>
      obtain ⟨hsys, rest, hhist, hrest⟩ := ih
      by_cases ht : t = ""
      · simpa [process_input, ht] using ⟨hsys, rest, hhist, hrest⟩
      · cases hbk : backend (requestMessages b t) with
        | some r =>
            refine ⟨by simp [process_input, ht, hbk, hsys], rest ++ [⟨Role.human, t⟩, ⟨Role.ai, r⟩], ?_, ?_⟩
            · simp [process_input, ht, hbk, hhist]
            · intro m hm
              rcases List.mem_append.mp hm with hm | hm
              · exact hrest m hm
              · rcases List.mem_cons.mp hm with hm | hm
                · rw [hm]; exact Or.inl rfl
                · rcases List.mem_cons.mp hm with hm | hm
                  · rw [hm]; exact Or.inr rfl
                  · cases hm
        | none =>
            refine ⟨by simp [process_input, ht, hbk, hsys], rest ++ [⟨Role.human, t⟩], ?_, ?_⟩
            · simp [process_input, ht, hbk, hhist]
            · intro m hm
              rcases List.mem_append.mp hm with hm | hm
              · exact hrest m hm
              · rcases List.mem_cons.mp hm with hm | hm
                · rw [hm]; exact Or.inl rfl
                · cases hm
  | clear b hb ih =>
      obtain ⟨hsys, rest, hhist, hrest⟩ := ih
      exact ⟨hsys, [], by simp [clear_conversation, hsys], by simp⟩

/-- Witness for claim C10 at the freshly constructed bot. -/
theorem conversation_history_invariant_witness :
    mkBot.system_message = initialSystemMessage ∧
    ∃ rest, mkBot.conversation_history = initialSystemMessage :: rest ∧
      ∀ m ∈ rest, m.role = Role.human ∨ m.role = Role.ai :=
  conversation_history_invariant mkBot Reachable.init

/-! ## Chunking claims -/

/-- Concatenating the stepped slices reproduces the text, by induction on the
number of chunks. -/
theorem chunk_flatten_aux (n : Nat) (hn : 0 < n) :
    ∀ (c : Nat) (t : List Char), (t.length + n - 1) / n = c →
      ((List.range c).map (fun i => (t.drop (i * n)).take n)).flatten = t := by
  intro c
  induction c with
  | zero =>
      intro t ht
      have hlen : t.length = 0 := by
        by_contra hne
        have h1 : 1 ≤ t.length := Nat.one_le_iff_ne_zero.mpr hne
        have h2 : t.length + n - 1 = (t.length - 1) + n := by omega
        rw [h2, Nat.add_div_right _ hn] at ht
        simp at ht
      rw [List.length_eq_zero.mp hlen]
      simp
  | succ c ih =>
      intro t ht
      have hlen : 1 ≤ t.length := by
        by_contra hne
        have h0 : t.length = 0 := by omega
        rw [h0] at ht
        have h4 : (0 + n - 1) / n = 0 := Nat.div_eq_of_lt (by omega)
        rw [h4] at ht
        omega
      have hc : (t.length - 1) / n = c := by
        have h2 : t.length + n - 1 = (t.length - 1) + n := by omega
        rw [h2, Nat.add_div_right _ hn] at ht
        exact Nat.add_right_cancel ht
      have hrec : ((t.drop n).length + n - 1) / n = c := by
        rw [List.length_drop]
        rcases le_or_lt n t.length with hle | hlt
        · have h3 : t.length - n + n - 1 = t.length - 1 := by omega
          rw [h3]; exact hc
        · have h0 : t.length - n = 0 := by omega
          rw [h0]
          have h4 : (0 + n - 1) / n = 0 := Nat.div_eq_of_lt (by omega)
          have h5 : (t.length - 1) / n = 0 := Nat.div_eq_of_lt (by omega)
          rw [h4]
          exact (hc.symm.trans h5).symm
      have hmap : ((List.range c).map
            ((fun i => (t.drop (i * n)).take n) ∘ Nat.succ)) =
          ((List.range c).map (fun i => ((t.drop n).drop (i * n)).take n)) := by
        apply List.map_congr_left
        intro i _
        have h6 : Nat.succ i * n = n + i * n := by
          rw [Nat.succ_mul, Nat.add_comm]
        simp only [Function.comp]
        rw [h6, ← List.drop_drop]
      rw [List.range_succ_eq_map, List.map_cons, List.map_map, List.flatten_cons,
        hmap, ih (t.drop n) hrec]
      simp [List.take_append_drop]

/-- Claim C3: chunkForSynthesis round-trips for every positive maxLen: the
chunks concatenate back to the input, every chunk has length at most maxLen,
the chunk count is ceil(len/maxLen), and empty input yields no chunks. -/
theorem chunkForSynthesis_spec (t : List Char) (n : Nat) (hn : 0 < n) :
    (chunkForSynthesis t n).flatten = t ∧
    (∀ c ∈ chunkForSynthesis t n, c.length ≤ n) ∧
    (chunkForSynthesis t n).length = (t.length + n - 1) / n ∧
    (t = [] → chunkForSynthesis t n = []) := by
  refine ⟨chunk_flatten_aux n hn _ t rfl, ?_, by simp [chunkForSynthesis], ?_⟩
  · intro c hc
    simp only [chunkForSynthesis, List.mem_map, List.mem_range] at hc
    obtain ⟨i, _, rfl⟩ := hc
    exact List.length_take_le n (t.drop (i * n))
  · intro h
    subst h
    have h0 : ([] : List Char).length + n - 1 = n - 1 := by simp
    unfold chunkForSynthesis
    rw [h0, Nat.div_eq_of_lt (by omega)]
    rfl

/-- Witness for claim C3 on the string hello with maxLen 2 and on the empty
input. -/
theorem chunkForSynthesis_spec_witness :
    (0 : Nat) < 2 ∧
    ((chunkForSynthesis ("hello".toList) 2).flatten = "hello".toList ∧
     (∀ c ∈ chunkForSynthesis ("hello".toList) 2, c.length ≤ 2) ∧
     (chunkForSynthesis ("hello".toList) 2).length =
       (("hello".toList).length + 2 - 1) / 2 ∧
     ("hello".toList = [] → chunkForSynthesis ("hello".toList) 2 = [])) ∧
    chunkForSynthesis ([] : List Char) 3 = [] :=
  ⟨by decide, chunkForSynthesis_spec ("hello".toList) 2 (by decide),
   (chunkForSynthesis_spec ([] : List Char) 3 (by decide)).2.2.2 rfl⟩

/-! ## Text segmentation claims -/

/-- A python substring hit yields a position where the indicator is a prefix
of the remaining text. -/
theorem occursIn_exists_drop (ind : List Char) :
    ∀ t : List Char, occursIn ind t = true →
      ∃ i, List.isPrefixOf ind (t.drop i) = true := by
  intro t
  induction t with
  | nil => intro h; exact ⟨0, h⟩
  | cons c rest ih =>
      intro h
      rcases Bool.or_eq_true_iff.mp h with h | h
      · exact ⟨0, h⟩
      · obtain ⟨i, hi⟩ := ih h
        exact ⟨i + 1, hi⟩

/-- No indicator matches at the end of the text. -/
theorem matchesIndicator_nil : matchesIndicator [] = false := by decide

/-- When some indicator matches at some position, the leftmost scan finds a
position. -/
theorem findSplit_isSome_of_matches :
    ∀ (t : List Char) (i : Nat), matchesIndicator (t.drop i) = true →
      (findSplit t).isSome = true := by
  intro t
  induction t with
  | nil =>
      intro i h
      simp only [List.drop_nil] at h
      rw [matchesIndicator_nil] at h
      cases h
  | cons c rest ih =>
      intro i h
      by_cases hm : matchesIndicator (c :: rest) = true
      · simp [findSplit, hm]
      · cases i with
        | zero => simp only [List.drop_zero] at h; exact absurd h hm
        | succ j =>
            simp only [List.drop_succ_cons] at h
            have := ih j h
            simp only [findSplit, if_neg hm]
            cases hf : findSplit rest with
            | none => rw [hf] at this; cases this
            | some k => simp [hf]

/-- The position returned by findSplit is a match, and the leftmost one. -/
theorem findSplit_spec :
    ∀ (t : List Char) (k : Nat), findSplit t = some k →
      matchesIndicator (t.drop k) = true ∧
      ∀ j, j < k → matchesIndicator (t.drop j) = false := by
  intro t
  induction t with
  | nil => intro k h; cases h
  | cons c rest ih =>
      intro k h
      by_cases hm : matchesIndicator (c :: rest) = true
      · simp only [findSplit, if_pos hm] at h
        cases h
        exact ⟨hm, by intro j hj; omega⟩
      · simp only [findSplit, if_neg hm] at h
        cases hf : findSplit rest with
        | none => rw [hf] at h; cases h
        | some k' =>
            rw [hf] at h
            simp only [Option.map_some'] at h
            obtain ⟨h1, h2⟩ := ih k' hf
            cases h
            refine ⟨by simpa using h1, ?_⟩
            intro j hj
            cases j with
            | zero => simpa using Bool.not_eq_true _ ▸ (Bool.eq_false_iff.mpr hm)
            | succ j' => simpa using h2 j' (by omega)

/-- containsCode implies the leftmost scan succeeds. -/
theorem findSplit_isSome_of_containsCode (t : List Char)
    (h : containsCode t = true) : (findSplit t).isSome = true := by
  unfold containsCode at h
  rw [List.any_eq_true] at h
  obtain ⟨ind, hmem, hocc⟩ := h
  obtain ⟨i, hi⟩ := occursIn_exists_drop ind t hocc
  apply findSplit_isSome_of_matches t i
  unfold matchesIndicator
  rw [List.any_eq_true]
  exact ⟨ind, hmem, hi⟩

/-- Claim C6: speakableIntro returns text with no code indicator unchanged;
on text containing an indicator it returns the stripped prefix before the
leftmost indicator occurrence, replaced by the fixed placeholder when that
prefix is empty or shorter than 10 characters; and on the reply
Sure, here: followed by a fenced python block it returns exactly Sure, here:
with the trailing whitespace stripped. -/
theorem speakableIntro_spec (t : List Char) :
    (containsCode t = false → speakableIntro t = t) ∧
    (containsCode t = true →
      ∃ k, findSplit t = some k ∧
        matchesIndicator (t.drop k) = true ∧
        (∀ j, j < k → matchesIndicator (t.drop j) = false) ∧
        speakableIntro t =
          (if stripChars (t.take k) = [] ∨ (stripChars (t.take k)).length < 10
           then placeholderIntro else stripChars (t.take k))) ∧
    speakableIntro ("Sure, here:\n```python\nprint(1)\n```".toList) =
      "Sure, here:".toList := by
  refine ⟨?_, ?_, ?_⟩
  · intro h
    simp [speakableIntro, h]
  · intro h
    obtain ⟨k, hk⟩ := Option.isSome_iff_exists.mp
      (findSplit_isSome_of_containsCode t h)
    obtain ⟨h1, h2⟩ := findSplit_spec t k hk
    refine ⟨k, hk, h1, h2, ?_⟩
    simp [speakableIntro, h, hk]
  · decide

/-- Witness for claim C6: a prose text is returned unchanged, and a text with
a code fence is reduced to its prefix. -/
theorem speakableIntro_spec_witness :
    speakableIntro ("just some prose".toList) = "just some prose".toList ∧
    (∃ k, findSplit ("ok: ```x".toList) = some k ∧
       matchesIndicator (("ok: ```x".toList).drop k) = true ∧
       (∀ j, j < k → matchesIndicator (("ok: ```x".toList).drop j) = false) ∧
       speakableIntro ("ok: ```x".toList) =
         (if stripChars (("ok: ```x".toList).take k) = [] ∨
             (stripChars (("ok: ```x".toList).take k)).length < 10
          then placeholderIntro
          else stripChars (("ok: ```x".toList).take k))) :=
  ⟨(speakableIntro_spec ("just some prose".toList)).1 (by decide),
   (speakableIntro_spec ("ok: ```x".toList)).2.1 (by decide)⟩

/-! ## Synthesis, playback and capture-loop claims -/

/-- Claim C5: a non-success status for one chunk does not abort synthesis of the
remaining chunks; the failed chunk is omitted and the collected temp files are
exactly the successful chunks in their original order, as the loop equals a
filter; in particular with chunk 2 of 3 failing, chunks 1 and 3 survive in
order. -/
theorem synthesizeChunks_filter (status : List Char → Nat)
    (chunks : List (List Char)) :
    synthesizeChunks status chunks =
      chunks.filter (fun c => status c == 200) ∧
    synthesizeChunks (fun c => if c = "b".toList then 500 else 200)
      ["a".toList, "b".toList, "c".toList] = ["a".toList, "c".toList] := by
  constructor
  · induction chunks with
    | nil => rfl
    | cons c rest ih =>
        by_cases h : status c = 200 <;>
          simp [synthesizeChunks, h, List.filter_cons, ih]
  · decide

/-- Claim C4 evaluated at its failing input: with three synthesized temp files
where playback of the second raises, the loop unlinks only the first file; the
function-level except handler swallows the exception and neither the second nor
the third file is ever deleted, so both temporary resources leak. -/
theorem playback_cleanup_leak :
    playbackDeletedFiles
      [⟨"t1.mp3", false⟩, ⟨"t2.mp3", true⟩, ⟨"t3.mp3", false⟩] = ["t1.mp3"] ∧
    "t2.mp3" ∉ playbackDeletedFiles
      [⟨"t1.mp3", false⟩, ⟨"t2.mp3", true⟩, ⟨"t3.mp3", false⟩] ∧
    "t3.mp3" ∉ playbackDeletedFiles
      [⟨"t1.mp3", false⟩, ⟨"t2.mp3", true⟩, ⟨"t3.mp3", false⟩] := by
  refine ⟨rfl, ?_, ?_⟩ <;> decide

/-- Counterexample to claim C9: when stop() is called while the loop is blocked
capturing and the in-flight cycle then transcribes successfully, the transcript
event is emitted after the Stopped status, so the Stopped status is not
terminal. -/
theorem runStopDuringCapture_counterexample :
    ¬ noEventsAfterStopped
        (runStopDuringCapture [] (CycleOutcome.success "hello")) := by
  intro h
  have h2 := h [Event.status "Listening..."] [Event.transcript "hello"] (by decide)
  cases h2

/-- Claim C9 as amended: after stop() during a blocked capture, the Stopped
status is emitted immediately by stop() itself, the in-flight cycle may emit
at most one further transcript or status event after it, and the loop then
exits with nothing further emitted. -/
theorem runStopDuringCapture_amended (prior : List CycleOutcome)
    (current : CycleOutcome) :
    (∃ pre, runStopDuringCapture prior current =
        pre ++ Event.status "Stopped listening" :: cycleEvents current) ∧
    (cycleEvents current).length ≤ 1 := by
  refine ⟨⟨Event.status "Listening..." :: (prior.map cycleEvents).flatten, ?_⟩, ?_⟩
  · simp [runStopDuringCapture]
  · cases current <;> simp [cycleEvents]
